import Mathlib

/-!
# Verification of the custodial key & wallet lifecycle subsystem

Shallow embedding of the core of the mux-backend repository:

* the AES-256-GCM envelope `EncryptionService`
  (`src/encryption/encryption.service.ts`) and the AES-256-CBC variant
  (crypto-js based), both parameterized over the external crypto
  primitives (keystream/MAC for GCM, block cipher for CBC);
* the wallet lifecycle model (`src/wallets/domain/wallet.model.ts`);
* `WalletsService.updateWalletStatus` (`src/wallets/wallets.service.ts`);
* the `WalletCreationOrchestrator`
  (`src/wallets/wallet-creation-orchestrator.service.ts`), with the
  storage layer modelled as an explicit state (committed rows visible to
  reads, plus rows committed by concurrent transactions that are invisible
  to this transaction's reads but enforced by the unique constraint);
* the `KeyManagementService` audit trail (service code inlined in the
  repository README).

Machine integers do not overflow in any of the modelled code paths; bytes
are modelled as `Nat` (all source values are < 256 and only XOR is
applied, which cannot leave that range).
-/

namespace MuxBackend

/-! ## Wallet lifecycle model (`src/wallets/domain/wallet.model.ts`) -/

inductive WalletNetwork
  | MAINNET
  | TESTNET
deriving DecidableEq, Repr

inductive WalletStatus
  | PROVISIONING
  | ACTIVE
  | ROTATING
  | SUSPENDED
  | DISABLED
  | COMPROMISED
deriving DecidableEq, Repr

/-- The string value of each `WalletStatus` enum member in the source. -/
def WalletStatus.name : WalletStatus → String
  | .PROVISIONING => "PROVISIONING"
  | .ACTIVE => "ACTIVE"
  | .ROTATING => "ROTATING"
  | .SUSPENDED => "SUSPENDED"
  | .DISABLED => "DISABLED"
  | .COMPROMISED => "COMPROMISED"

/-- `ALLOWED_TRANSITIONS` table (wallet.model.ts lines 59-71). -/
def ALLOWED_TRANSITIONS : WalletStatus → List WalletStatus
  | .PROVISIONING => [.ACTIVE, .SUSPENDED, .DISABLED]
  | .ACTIVE => [.ROTATING, .SUSPENDED, .DISABLED, .COMPROMISED]
  | .ROTATING => [.ACTIVE, .SUSPENDED, .DISABLED, .COMPROMISED]
  | .SUSPENDED => [.ACTIVE, .DISABLED, .COMPROMISED]
  | .DISABLED => []
  | .COMPROMISED => []

/-- `canTransitionWalletStatus(from, to)` (wallet.model.ts lines 73-75). -/
def canTransitionWalletStatus (src dst : WalletStatus) : Bool :=
  (ALLOWED_TRANSITIONS src).contains dst

/-- Wallet domain record (wallet.model.ts lines 24-53).  `Date` values are
modelled as `Nat` timestamps. -/
structure Wallet where
  id : String
  userId : String
  publicKey : String
  encryptedSecret : String
  encryptionVersion : Nat
  secretVersion : Nat
  network : WalletNetwork
  status : WalletStatus
  statusReason : Option String
  statusChangedAt : Nat
  rotatedFromId : Option String
  createdAt : Nat
  updatedAt : Nat
deriving DecidableEq, Repr

/-- `transitionWalletStatus(wallet, to, statusReason?, at)` (wallet.model.ts
lines 77-94).  The thrown `Error` is modelled as `Except.error` carrying the
exact message.  Note the order of the two guards in the source: a
same-status call returns the wallet unchanged BEFORE the allowed-transition
check runs. -/
def transitionWalletStatus (w : Wallet) (dst : WalletStatus)
    (statusReason : Option String) (now : Nat) : Except String Wallet :=
  if w.status = dst then .ok w
  else if ¬ canTransitionWalletStatus w.status dst then
    .error ("Invalid wallet status transition: " ++ w.status.name ++ " -> " ++ dst.name)
  else
    .ok { w with
      status := dst
      statusReason := statusReason
      statusChangedAt := now
      updatedAt := now }

/-! ## Storage model and wallet creation orchestrator
(`src/wallets/wallet-creation-orchestrator.service.ts`)

The Prisma-backed storage is modelled as an explicit state.  `wallets`
holds the committed rows this transaction's reads (`findFirst`) can see.
`phantom` holds rows committed by a concurrent transaction after this
transaction took its read snapshot: they are invisible to `findFirst`, but
the storage layer's uniqueness constraint on `(userId, network)` is
enforced against them on insert — this is exactly the race window the spec
describes between the check (step 3) and the insert (step 4). -/

structure User where
  id : String
  email : Option String
  status : String
  createdAt : Nat
  updatedAt : Nat
deriving DecidableEq, Repr

structure Db where
  /-- ids of existing users (the external user table). -/
  users : List String
  /-- committed wallet rows visible to this transaction's reads. -/
  wallets : List Wallet
  /-- wallet rows committed concurrently after our read snapshot. -/
  phantom : List Wallet
  /-- id counter for rows created by the storage layer. -/
  nextId : Nat
deriving DecidableEq, Repr

/-- Predicate for rows of a given `(userId, network)` pair. -/
def matchesUserNetwork (u : String) (n : WalletNetwork) (w : Wallet) : Bool :=
  w.userId = u && w.network = n

inductive OrchError
  | notFoundException (msg : String)
  | conflictException (msg : String)
  | uniqueConstraintViolation
  | genericError (msg : String)
deriving DecidableEq, Repr

structure CreateWalletOrchestratorRequest where
  userId : String
  network : WalletNetwork
  idempotencyKey : Option String
deriving DecidableEq, Repr

structure WalletOrchestrationResult where
  wallet : Wallet
  /-- Only returned during creation for immediate use; empty for existing wallets. -/
  privateKey : String
  isNewWallet : Bool
  idempotencyKey : Option String
deriving DecidableEq, Repr

/-- Entropy/crypto environment of one orchestration: the keypair drawn by
`generateStellarKeyPair` and the `EncryptionService.encryptAndSerialize`
function, both external to the orchestration logic. -/
structure OrchEnv where
  genPublicKey : String
  genPrivateKey : String
  encryptAndSerialize : String → String

/-- `resolveUser` (orchestrator lines 155-168): the source deliberately does
NOT query the user table — it fabricates a mock user for any `userId`
("Mock user for development").  The `Db` argument is taken and ignored,
exactly as the real user table is ignored. -/
def resolveUser (userId : String) (_db : Db) (now : Nat) : Option User :=
  some { id := userId
         email := some (userId ++ "@example.com")
         status := "ACTIVE"
         createdAt := now
         updatedAt := now }

/-- `findExistingWallet` (orchestrator lines 173-183): `findFirst` over the
rows visible to this transaction. -/
def findExistingWallet (userId : String) (network : WalletNetwork) (db : Db) :
    Option Wallet :=
  db.wallets.find? (matchesUserNetwork userId network)

/-- `tx.wallet.create`: the storage layer enforces the `(userId, network)`
uniqueness constraint against every committed row — including rows
committed by concurrent transactions that this transaction's reads cannot
see — and fails with `UniqueConstraintViolation` on conflict. -/
def walletCreate (db : Db) (userId publicKey encryptedSecret : String)
    (network : WalletNetwork) (now : Nat) : Except OrchError (Wallet × Db) :=
  if (db.wallets ++ db.phantom).any (matchesUserNetwork userId network) then
    .error .uniqueConstraintViolation
  else
    let w : Wallet :=
      { id := toString db.nextId
        userId := userId
        publicKey := publicKey
        encryptedSecret := encryptedSecret
        encryptionVersion := 1
        secretVersion := 1
        network := network
        status := .ACTIVE
        statusReason := none
        statusChangedAt := now
        rotatedFromId := none
        createdAt := now
        updatedAt := now }
    .ok (w, { db with wallets := db.wallets ++ [w], nextId := db.nextId + 1 })

/-- `checkIdempotency` (orchestrator lines 228-235): a stub that always
reports no cached result. -/
def checkIdempotency (_idempotencyKey : String) (_db : Db) :
    Option WalletOrchestrationResult :=
  none

/-- `createNewWallet` (orchestrator lines 188-223): generate a keypair,
encrypt the private key, insert the row.  The `catch` block swallows ANY
insert failure — a uniqueness-constraint violation included — and rethrows
the generic `Error('Wallet creation failed')`. -/
def createNewWallet (env : OrchEnv) (request : CreateWalletOrchestratorRequest)
    (db : Db) (now : Nat) : Except OrchError (Wallet × String × Db) :=
  let encryptedSecret := env.encryptAndSerialize env.genPrivateKey
  match walletCreate db request.userId env.genPublicKey encryptedSecret
      request.network now with
  | .ok (w, db') => .ok (w, env.genPrivateKey, db')
  | .error _ => .error (.genericError "Wallet creation failed")

/-- `createWallet` (orchestrator lines 67-127).  The whole body runs in one
transaction: on any error the state rolls back to the input `Db`.  The
outer `catch` rethrows `ConflictException` unchanged and converts every
other failure into the generic `Error('Wallet creation orchestration
failed')`. -/
def createWallet (env : OrchEnv) (request : CreateWalletOrchestratorRequest)
    (db : Db) (now : Nat) : Except OrchError WalletOrchestrationResult × Db :=
  let body : Except OrchError (WalletOrchestrationResult × Db) :=
    match resolveUser request.userId db now with
    | none =>
        .error (.notFoundException
          ("User with ID " ++ request.userId ++ " not found"))
    | some _user =>
        let cached :=
          match request.idempotencyKey with
          | some k => checkIdempotency k db
          | none => none
        match cached with
        | some r => .ok (r, db)
        | none =>
            match findExistingWallet request.userId request.network db with
            | some w =>
                .ok ({ wallet := w
                       privateKey := ""
                       isNewWallet := false
                       idempotencyKey := request.idempotencyKey }, db)
            | none =>
                match createNewWallet env request db now with
                | .ok (w, pk, db') =>
                    .ok ({ wallet := w
                           privateKey := pk
                           isNewWallet := true
                           idempotencyKey := request.idempotencyKey }, db')
                | .error e => .error e
  match body with
  | .ok (r, db') => (.ok r, db')
  | .error (.conflictException m) => (.error (.conflictException m), db)
  | .error _ =>
      (.error (.genericError "Wallet creation orchestration failed"), db)

/-- The row `walletCreate` inserts for a fresh `(userId, network)` pair:
spelled out for use in the characterization lemmas below. -/
def freshWallet (env : OrchEnv) (userId : String) (network : WalletNetwork)
    (db : Db) (now : Nat) : Wallet :=
  { id := toString db.nextId
    userId := userId
    publicKey := env.genPublicKey
    encryptedSecret := env.encryptAndSerialize env.genPrivateKey
    encryptionVersion := 1
    secretVersion := 1
    network := network
    status := .ACTIVE
    statusReason := none
    statusChangedAt := now
    rotatedFromId := none
    createdAt := now
    updatedAt := now }

/-! ## `WalletsService.updateWalletStatus` (`src/wallets/wallets.service.ts`
lines 217-243).  The update writes the requested status unconditionally —
no call to `canTransitionWalletStatus` appears anywhere in the service. -/

def updateWalletStatus (db : Db) (walletId : String) (status : WalletStatus)
    (reason : Option String) (now : Nat) : Except OrchError (Wallet × Db) :=
  match db.wallets.find? (fun w => w.id = walletId) with
  | none =>
      .error (.notFoundException
        ("Wallet with ID " ++ walletId ++ " not found"))
  | some w =>
      let w' := { w with
        status := status
        statusReason := reason
        statusChangedAt := now
        updatedAt := now }
      .ok (w', { db with
        wallets := db.wallets.map (fun x => if x.id = walletId then w' else x) })

/-! ## AES-256-GCM envelope service (`src/encryption/encryption.service.ts`)

Bytes are `Nat` (< 256 in all source values).  AES-256-GCM is counter-mode
XOR encryption plus a MAC over (iv, AAD, ciphertext); the node `crypto`
primitive is external to the repository, so it is modelled as a structure:
a keystream generator and a MAC, with the keystream-length law node
guarantees.  `decrypt` returns the XORed plaintext exactly when the
recomputed tag equals the stored tag (`decipher.final()` throws
otherwise), which is observationally the node behaviour. -/

structure GcmPrimitive where
  /-- `key → iv → length → keystream` of the requested length. -/
  keystream : List Nat → List Nat → Nat → List Nat
  /-- `key → iv → aad → ciphertext → tag`. -/
  mac : List Nat → List Nat → List Nat → List Nat → List Nat
  keystream_length : ∀ k iv n, (keystream k iv n).length = n

/-- `EncryptionResult` (encryption.service.ts lines 5-9); hex strings are
modelled as the byte lists they encode. -/
structure EncryptionResult where
  encryptedData : List Nat
  iv : List Nat
  tag : List Nat
deriving DecidableEq, Repr

/-- `DecryptionError.code` values (encryption.service.ts lines 11-13). -/
inductive DecryptionErrorCode
  | DECRYPTION_FAILED
  | INVALID_KEY
  | INVALID_DATA
deriving DecidableEq, Repr

/-- The fixed AAD `'wallet-secret'` set on every cipher (lines 47 and 77). -/
def walletSecretAAD : List Nat :=
  "wallet-secret".data.map Char.toNat

/-- `EncryptionService.encrypt` (lines 43-63): fresh `iv` is an explicit
argument (drawn by `crypto.randomBytes` in the source). -/
def gcmEncrypt (prim : GcmPrimitive) (key iv plaintext : List Nat) :
    EncryptionResult :=
  let encrypted := List.zipWith Nat.xor plaintext
    (prim.keystream key iv plaintext.length)
  { encryptedData := encrypted
    iv := iv
    tag := prim.mac key iv walletSecretAAD encrypted }

/-- `EncryptionService.decrypt` (lines 72-98): an authentication failure
surfaces from node as `Unsupported state or unable to authenticate data`,
whose message contains neither `bad decrypt` nor `wrong key`, so the catch
block tags it `INVALID_DATA`. -/
def gcmDecrypt (prim : GcmPrimitive) (key : List Nat) (e : EncryptionResult) :
    Except DecryptionErrorCode (List Nat) :=
  if prim.mac key e.iv walletSecretAAD e.encryptedData = e.tag then
    .ok (List.zipWith Nat.xor e.encryptedData
      (prim.keystream key e.iv e.encryptedData.length))
  else
    .error .INVALID_DATA

/-- The GCM service's master key (constructor, line 32): a SINGLE SHA-256
application to the configured secret, computed once at construction. -/
def gcmDerivedKey (sha256 : List Nat → List Nat) (secret : List Nat) :
    List Nat :=
  sha256 secret

/-! ## AES-256-CBC envelope variant (crypto-js based service)

`encrypt` pads with PKCS#7, derives the key by PBKDF2 (10000 iterations)
from the configured secret and a fresh salt, and CBC-chains an external
block cipher.  `decrypt` re-derives the key, inverts the chain, strips
the padding — crypto-js' `Pkcs7.unpad` performs NO validation, it simply
drops as many bytes as the last byte says — and then decodes the bytes as
a UTF-8 string (`decrypted.toString(CryptoJS.enc.Utf8)`), which throws
`Malformed UTF-8 data` on ill-formed bytes; that throw and the
`decryptedText.length === 0` guard are the only integrity checks, both
caught into `success = false`.  Strings are modelled as their UTF-8 byte
lists, so the decode step is modelled as a strict UTF-8 well-formedness
check on the decrypted bytes. -/

/-- `n`-fold iterated application of a hash/PRF. -/
def iterHash (H : List Nat → List Nat) : Nat → List Nat → List Nat
  | 0, x => x
  | n + 1, x => H (iterHash H n x)

/-- `iterations: 10000` in both `encrypt` (line 44) and `decrypt` (line 87)
of the CBC variant. -/
def cbcPbkdf2Iterations : Nat := 10000

/-- PBKDF2 key derivation of the CBC variant, modelled as 10000-fold
iteration of the underlying PRF over secret-plus-salt. -/
def cbcDeriveKey (prf : List Nat → List Nat) (secret salt : List Nat) :
    List Nat :=
  iterHash prf cbcPbkdf2Iterations (secret ++ salt)

/-- The external AES block cipher used in CBC mode by crypto-js, plus the
PRF inside PBKDF2.  A block cipher maps 16-byte blocks bijectively. -/
structure CbcPrimitive where
  prf : List Nat → List Nat
  encBlock : List Nat → List Nat → List Nat
  decBlock : List Nat → List Nat → List Nat
  dec_enc : ∀ k b, b.length = 16 → decBlock k (encBlock k b) = b
  enc_length : ∀ k b, b.length = 16 → (encBlock k b).length = 16

/-- PKCS#7 padding to a 16-byte boundary (always adds 1..16 bytes). -/
def pkcs7Pad (p : List Nat) : List Nat :=
  let k := 16 - p.length % 16
  p ++ List.replicate k k

/-- crypto-js `Pkcs7.unpad`: drop as many trailing bytes as the last byte
says, with no validation of the padding bytes. -/
def pkcs7Unpad (l : List Nat) : List Nat :=
  l.take (l.length - l.getLastD 0)

/-- Split into 16-byte chunks (fuel-based structural recursion so the
kernel can evaluate it on concrete inputs; the fuel `l.length` always
suffices since each step consumes at least one element). -/
def chunks16Aux : Nat → List Nat → List (List Nat)
  | 0, _ => []
  | _ + 1, [] => []
  | fuel + 1, x :: xs => (x :: xs).take 16 :: chunks16Aux fuel ((x :: xs).drop 16)

def chunks16 (l : List Nat) : List (List Nat) :=
  chunks16Aux l.length l

/-- CBC encryption chain: `Cᵢ = E(Pᵢ ⊕ Cᵢ₋₁)` with `C₀ = iv`. -/
def cbcEncBlocks (prim : CbcPrimitive) (key : List Nat) :
    List Nat → List (List Nat) → List (List Nat)
  | _, [] => []
  | prev, b :: bs =>
      let c := prim.encBlock key (List.zipWith Nat.xor b prev)
      c :: cbcEncBlocks prim key c bs

/-- CBC decryption chain: `Pᵢ = D(Cᵢ) ⊕ Cᵢ₋₁`. -/
def cbcDecBlocks (prim : CbcPrimitive) (key : List Nat) :
    List Nat → List (List Nat) → List (List Nat)
  | _, [] => []
  | prev, c :: cs =>
      List.zipWith Nat.xor (prim.decBlock key c) prev
        :: cbcDecBlocks prim key c cs

/-- `EncryptionResult` of the CBC variant (part_007 lines 4-8): base64
strings modelled as the byte lists they encode. -/
structure CbcEncryptionResult where
  encryptedData : List Nat
  iv : List Nat
  salt : List Nat
deriving DecidableEq, Repr

/-- `DecryptionResult` of the CBC variant (part_007 lines 10-14). -/
structure CbcDecryptionResult where
  decryptedData : List Nat
  success : Bool
  error : Option String
deriving DecidableEq, Repr

/-- CBC `encrypt` (part_007 lines 35-66): fresh `salt` and `iv` are
explicit arguments. -/
def cbcEncrypt (prim : CbcPrimitive) (secret salt iv p : List Nat) :
    CbcEncryptionResult :=
  let key := cbcDeriveKey prim.prf secret salt
  { encryptedData := (cbcEncBlocks prim key iv (chunks16 (pkcs7Pad p))).flatten
    iv := iv
    salt := salt }

/-- The error message produced by the empty-plaintext guard of CBC
`decrypt` (part_007 lines 100-102 wrapped by line 114). -/
def cbcEmptyErrorMsg : String :=
  "Decryption failed: Decryption resulted in empty data - invalid key or corrupted data"

/-- The error message produced by the field-presence guard of CBC
`decrypt` (part_007 line 77 wrapped by line 114). -/
def cbcInvalidFormatMsg : String :=
  "Decryption failed: Invalid encrypted data format"

/-- The error message produced when `decrypted.toString(CryptoJS.enc.Utf8)`
(part_007 line 97) throws on ill-formed bytes, wrapped by line 114. -/
def cbcMalformedUtf8Msg : String :=
  "Decryption failed: Malformed UTF-8 data"

/-- One-pass strict UTF-8 well-formedness checker: `pending` is the number
of continuation bytes still expected, and `[lo, hi]` the allowed range for
the NEXT byte of the current sequence (continuation bytes after the first
are always `0x80`-`0xBF`).  In the start state a leading byte opens a
sequence: `0xC2`-`0xDF` expect 1 continuation; `0xE0` expects 2 with the
first in `0xA0`-`0xBF` (rejecting overlongs); `0xE1`-`0xEC`, `0xEE`,
`0xEF` expect 2 plain; `0xED` expects 2 with the first in `0x80`-`0x9F`
(rejecting surrogates); `0xF0` expects 3 with the first in `0x90`-`0xBF`
(rejecting overlongs); `0xF1`-`0xF3` expect 3 plain; `0xF4` expects 3 with
the first in `0x80`-`0x8F` (rejecting code points above `U+10FFFF`).
Everything else — stray continuation bytes, `0xC0`/`0xC1`, `0xF5`+,
truncated sequences — is rejected. -/
def utf8OkState (pending lo hi : Nat) : List Nat → Bool
  | [] => pending == 0
  | b :: rest =>
    if pending = 0 then
      if b ≤ 127 then utf8OkState 0 0 0 rest
      else if 194 ≤ b && b ≤ 223 then utf8OkState 1 128 191 rest
      else if b = 224 then utf8OkState 2 160 191 rest
      else if (225 ≤ b && b ≤ 236) || b = 238 || b = 239 then
        utf8OkState 2 128 191 rest
      else if b = 237 then utf8OkState 2 128 159 rest
      else if b = 240 then utf8OkState 3 144 191 rest
      else if 241 ≤ b && b ≤ 243 then utf8OkState 3 128 191 rest
      else if b = 244 then utf8OkState 3 128 143 rest
      else false
    else
      if lo ≤ b && b ≤ hi then utf8OkState (pending - 1) 128 191 rest
      else false

/-- Strict UTF-8 well-formedness of a byte list: the check performed by
crypto-js `enc.Utf8.stringify` (via `decodeURIComponent`), which throws
on ill-formed UTF-8. -/
def utf8Ok (l : List Nat) : Bool := utf8OkState 0 0 0 l

/-- CBC `decrypt` (part_007 lines 71-117): validate field presence (JS
falsy check: empty strings are invalid), re-derive the key from the
envelope's salt, invert the chain, strip padding, then decode the bytes
as UTF-8 — ill-formed bytes throw `Malformed UTF-8 data` (line 97) and
empty output throws the empty-data error (lines 100-102), both caught by
line 109 into `success = false`. -/
def cbcDecrypt (prim : CbcPrimitive) (secret : List Nat)
    (e : CbcEncryptionResult) : CbcDecryptionResult :=
  if e.encryptedData = [] || e.iv = [] || e.salt = [] then
    { decryptedData := [], success := false, error := some cbcInvalidFormatMsg }
  else
    let key := cbcDeriveKey prim.prf secret e.salt
    let decrypted :=
      pkcs7Unpad (cbcDecBlocks prim key e.iv (chunks16 e.encryptedData)).flatten
    if ¬ utf8Ok decrypted then
      { decryptedData := [], success := false, error := some cbcMalformedUtf8Msg }
    else if decrypted = [] then
      { decryptedData := [], success := false, error := some cbcEmptyErrorMsg }
    else
      { decryptedData := decrypted, success := true, error := none }

/-- Flip byte `i` of a byte list by XOR with a nonzero mask `m` — the
"flipping any single byte" tamper of the spec. -/
def flipAt (l : List Nat) (i m : Nat) : List Nat :=
  l.set i (l.getD i 0 ^^^ m)

/-! ## Key management audit trail (`KeyManagementService`, code inlined in
the repository README)

The in-memory audit log is a list (oldest entry first; `push` appends at
the end).  Provider and encryption calls are external; each step takes the
provider's outcome as an argument. -/

structure GeneratedKeyPair where
  publicKey : String
  privateKeyMaterial : String
deriving DecidableEq, Repr

structure KeyOperationAudit where
  operation : String
  keyId : String
  publicKey : String
  timestamp : Nat
  success : Bool
  errorMessage : Option String
  metadata : Option String
deriving DecidableEq, Repr

structure EncryptedKeyMaterial where
  encryptedData : String
  encryptionVersion : Nat
  keyType : String
  publicKey : String
deriving DecidableEq, Repr

/-- `auditKeyOperation` (README lines 364-378): append the entry, emit a
log line that truncates the public key to a 12-character prefix, and evict
the oldest entry past 1000. -/
def auditKeyOperation (log : List KeyOperationAudit) (a : KeyOperationAudit) :
    List KeyOperationAudit × String :=
  let log' := log ++ [a]
  let line :=
    "[AUDIT] " ++ a.operation ++ " - " ++ a.publicKey.take 12 ++ "... - "
      ++ (if a.success then "SUCCESS" else "FAILED")
      ++ (match a.errorMessage with
          | some m => " - " ++ m
          | none => "")
  (if log'.length > 1000 then log'.drop 1 else log', line)

/-- `generateKey` (README lines 180-229), restricted to its audit-relevant
behaviour: the provider's outcome and `encryptAndSerialize` are external
arguments.  On success the audit entry stores the FULL public key; on
failure it stores the provider's error message. -/
def generateKeyStep (genOutcome : Except String GeneratedKeyPair)
    (encryptAndSerialize : String → String) (metadata : Option String)
    (now : Nat) (log : List KeyOperationAudit) :
    Except String EncryptedKeyMaterial × List KeyOperationAudit :=
  match genOutcome with
  | .ok kp =>
      let encryptedData := encryptAndSerialize kp.privateKeyMaterial
      let step := auditKeyOperation log
        { operation := "GENERATE"
          keyId := "new"
          publicKey := kp.publicKey
          timestamp := now
          success := true
          errorMessage := none
          metadata := metadata }
      (.ok { encryptedData := encryptedData
             encryptionVersion := 1
             keyType := "STELLAR_ED25519"
             publicKey := kp.publicKey }, step.1)
  | .error e =>
      let step := auditKeyOperation log
        { operation := "GENERATE"
          keyId := "new"
          publicKey := "failed"
          timestamp := now
          success := false
          errorMessage := some e
          metadata := none }
      (.error "Key generation failed", step.1)

structure SignatureResult where
  signature : String
  publicKey : String
  algorithm : String
  timestamp : Nat
deriving DecidableEq, Repr

/-- `sign` (README lines 235-286), restricted to its audit-relevant
behaviour: the provider's signing outcome is an external argument. -/
def signStep (signOutcome : Except String SignatureResult)
    (requestPublicKey : String) (now : Nat) (log : List KeyOperationAudit) :
    Except String SignatureResult × List KeyOperationAudit :=
  match signOutcome with
  | .ok sig =>
      let step := auditKeyOperation log
        { operation := "SIGN"
          keyId := "unknown"
          publicKey := requestPublicKey
          timestamp := now
          success := true
          errorMessage := none
          metadata := none }
      (.ok sig, step.1)
  | .error e =>
      let step := auditKeyOperation log
        { operation := "SIGN"
          keyId := "unknown"
          publicKey := requestPublicKey
          timestamp := now
          success := false
          errorMessage := some e
          metadata := none }
      (.error "Signing operation failed", step.1)

/-- JS `arr.slice(-n)`: the last `min(n, length)` elements in array order
for `n ≥ 1`; `slice(-0)` is `slice(0)`, the whole array. -/
def jsSliceLast (l : List KeyOperationAudit) (n : Nat) :
    List KeyOperationAudit :=
  if n = 0 then l else l.drop (l.length - n)

/-- `getAuditLog(limit = 100)` (README lines 342-344):
`this.auditLog.slice(-limit)`. -/
def getAuditLog (log : List KeyOperationAudit) (limit : Nat := 100) :
    List KeyOperationAudit :=
  jsSliceLast log limit

/-! ## Concrete sample values

Used by closed counterexamples and witnesses to evaluate the embedded
services on explicit inputs. -/

/-- A sample orchestration environment: one drawn keypair and a concrete
serializing encryption. -/
def envW : OrchEnv :=
  { genPublicKey := "GPUBW"
    genPrivateKey := "privW"
    encryptAndSerialize := fun s => "enc:" ++ s }

/-- Empty store holding a single user `u1`. -/
def dbW0 : Db := { users := ["u1"], wallets := [], phantom := [], nextId := 0 }

/-- The wallet row `createWallet envW ⟨u1, TESTNET, none⟩ dbW0 1` creates. -/
def w1W : Wallet :=
  { id := "0"
    userId := "u1"
    publicKey := "GPUBW"
    encryptedSecret := "enc:privW"
    encryptionVersion := 1
    secretVersion := 1
    network := .TESTNET
    status := .ACTIVE
    statusReason := none
    statusChangedAt := 1
    rotatedFromId := none
    createdAt := 1
    updatedAt := 1 }

/-- The orchestration result of that first call. -/
def r1W : WalletOrchestrationResult :=
  { wallet := w1W, privateKey := "privW", isNewWallet := true, idempotencyKey := none }

/-- The store after that first call. -/
def db1W : Db := { users := ["u1"], wallets := [w1W], phantom := [], nextId := 1 }

/-- A wallet row for `user-123` on TESTNET committed by a concurrent
transaction (invisible to this transaction's reads). -/
def wPhantom : Wallet :=
  { id := "race-1"
    userId := "user-123"
    publicKey := "GRACE"
    encryptedSecret := "enc:other"
    encryptionVersion := 1
    secretVersion := 1
    network := .TESTNET
    status := .ACTIVE
    statusReason := none
    statusChangedAt := 0
    rotatedFromId := none
    createdAt := 0
    updatedAt := 0 }

/-- Store state in the middle of the creation race: no row visible to this
transaction's reads, one concurrently committed row. -/
def dbRace : Db :=
  { users := ["user-123"], wallets := [], phantom := [wPhantom], nextId := 1 }

/-- Store with NO users at all. -/
def dbNoUsers : Db := { users := [], wallets := [], phantom := [], nextId := 0 }

/-- A wallet in terminal status DISABLED. -/
def wDisabled : Wallet :=
  { id := "wd"
    userId := "u9"
    publicKey := "GDIS"
    encryptedSecret := "enc:dis"
    encryptionVersion := 1
    secretVersion := 1
    network := .MAINNET
    status := .DISABLED
    statusReason := some "fraud"
    statusChangedAt := 2
    rotatedFromId := none
    createdAt := 0
    updatedAt := 2 }

/-- Store holding the DISABLED wallet. -/
def dbDisabled : Db :=
  { users := ["u9"], wallets := [wDisabled], phantom := [], nextId := 1 }

/-- A wallet in status ACTIVE. -/
def wActiveSample : Wallet :=
  { id := "wa"
    userId := "u2"
    publicKey := "GACT"
    encryptedSecret := "enc:act"
    encryptionVersion := 1
    secretVersion := 1
    network := .TESTNET
    status := .ACTIVE
    statusReason := none
    statusChangedAt := 0
    rotatedFromId := none
    createdAt := 0
    updatedAt := 0 }

/-- Sample audit entries with increasing timestamps (1, 2, 3). -/
def auditE1 : KeyOperationAudit :=
  { operation := "GENERATE", keyId := "new", publicKey := "GPK1"
    timestamp := 1, success := true, errorMessage := none, metadata := none }

def auditE2 : KeyOperationAudit :=
  { operation := "SIGN", keyId := "unknown", publicKey := "GPK2"
    timestamp := 2, success := true, errorMessage := none, metadata := none }

def auditE3 : KeyOperationAudit :=
  { operation := "SIGN", keyId := "unknown", publicKey := "GPK3"
    timestamp := 3, success := false, errorMessage := some "boom", metadata := none }

/-- Sample keypair whose public key is longer than the 12-character
truncation prefix. -/
def kpSample : GeneratedKeyPair :=
  { publicKey := "GABCDEFGHIJKLMNOPQRSTUVWXYZ", privateKeyMaterial := "SSECRETSEED1" }

/-- Two audit entries agreeing on the first 12 characters of the public
key but differing beyond them. -/
def auditPrefixA : KeyOperationAudit :=
  { operation := "GENERATE", keyId := "new", publicKey := "GABCDEFGHIJKXXXX"
    timestamp := 4, success := true, errorMessage := none, metadata := none }

def auditPrefixB : KeyOperationAudit :=
  { operation := "GENERATE", keyId := "new", publicKey := "GABCDEFGHIJKYYYY"
    timestamp := 4, success := true, errorMessage := none, metadata := none }

/-- A concrete GCM primitive: constant keystream, tag = iv ++ ciphertext. -/
def gcmToy : GcmPrimitive :=
  { keystream := fun _ _ n => List.replicate n 170
    mac := fun _ iv _ c => iv ++ c
    keystream_length := fun _ _ n => List.length_replicate n 170 }

/-- A concrete CBC block-cipher primitive: shift every byte up by one. -/
def cbcToy : CbcPrimitive :=
  { prf := fun x => 0 :: x
    encBlock := fun _ b => b.map (· + 1)
    decBlock := fun _ b => b.map (· - 1)
    dec_enc := fun _ b _ => by
      simp only [List.map_map]
      have h : ((fun x => x - 1) ∘ fun x => x + 1) = @id Nat :=
        funext fun x => by simp
      rw [h, List.map_id]
    enc_length := fun _ b h => by simp [h]
    }

/-- Length-growing hash used to count iterations of a key derivation:
every application prepends one byte, so output length counts the number of
applications. -/
def consZero (xs : List Nat) : List Nat := 0 :: xs

/-- A 16-byte all-zero IV. -/
def ivZero : List Nat := List.replicate 16 0

/-- A 16-byte ASCII plaintext (sixteen `'A'` bytes). -/
def pAscii : List Nat := List.replicate 16 65

/-! ## General lemmas -/

/-- XOR-ing twice with the same stream restores the input. -/
theorem zipWith_xor_cancel :
    ∀ (a s : List Nat), a.length ≤ s.length →
      List.zipWith Nat.xor (List.zipWith Nat.xor a s) s = a := by
  intro a
  induction a with
  | nil => intro s _; simp
  | cons x xs ih =>
      intro s hs
      cases s with
      | nil => simp at hs
      | cons y ys =>
          simp only [List.zipWith_cons_cons, List.cons.injEq]
          exact ⟨Nat.xor_cancel_right y x, ih ys (by simpa using hs)⟩

/-- Flipping a byte by a nonzero mask changes the list. -/
theorem flipAt_ne (l : List Nat) (i m : Nat) (hi : i < l.length) (hm : m ≠ 0) :
    flipAt l i m ≠ l := by
  intro h
  have h1 : (flipAt l i m)[i]? = l[i]? := by rw [h]
  rw [flipAt, List.getElem?_set_self hi, List.getElem?_eq_getElem hi] at h1
  have h2 : l.getD i 0 ^^^ m = l[i] := Option.some.inj h1
  have h3 : l.getD i 0 = l[i] := by
    rw [List.getD_eq_getElem?_getD, List.getElem?_eq_getElem hi]; rfl
  rw [h3] at h2
  have h4 : 0 = m := by
    have := congrArg (fun t => l[i] ^^^ t) h2
    simpa [Nat.xor_cancel_left, Nat.xor_self] using this.symm
  exact hm h4.symm

/-- `flipAt` keeps the length. -/
theorem flipAt_length (l : List Nat) (i m : Nat) :
    (flipAt l i m).length = l.length := by
  simp [flipAt]

/-- Iterating the length-growing hash `n` times grows the length by `n`:
the output length counts the number of hash applications. -/
theorem iterHash_consZero_length :
    ∀ (n : Nat) (x : List Nat), (iterHash consZero n x).length = x.length + n := by
  intro n
  induction n with
  | zero => intro x; simp [iterHash]
  | succ k ih =>
      intro x
      simp only [iterHash, consZero, List.length_cons, ih]
      omega

/-- XOR-ing with a stream, then with the same stream flipped at one
position, flips the input at that position. -/
theorem zipWith_xor_flip :
    ∀ (a b : List Nat) (i m : Nat), a.length = b.length →
      List.zipWith Nat.xor (List.zipWith Nat.xor a b) (flipAt b i m)
        = flipAt a i m := by
  intro a
  induction a with
  | nil =>
      intro b i m h
      cases b with
      | nil => simp [flipAt]
      | cons y ys => simp at h
  | cons x xs ih =>
      intro b i m h
      cases b with
      | nil => simp at h
      | cons y ys =>
          have hlen : xs.length = ys.length := by simpa using h
          cases i with
          | zero =>
              simp only [flipAt, List.set_cons_zero, List.getD_cons_zero,
                List.zipWith_cons_cons]
              refine congrArg₂ _ ?_ ?_
              · show x ^^^ y ^^^ (y ^^^ m) = x ^^^ m
                rw [Nat.xor_assoc, Nat.xor_cancel_left]
              · exact zipWith_xor_cancel xs ys (le_of_eq hlen)
          | succ j =>
              simp only [flipAt, List.set_cons_succ, List.getD_cons_succ,
                List.zipWith_cons_cons]
              refine congrArg₂ _ (Nat.xor_cancel_right y x) ?_
              exact ih ys j m hlen

/-- PKCS#7 always adds between 1 and 16 bytes. -/
theorem pkcs7_pad_amount_pos (p : List Nat) :
    1 ≤ 16 - p.length % 16 := by
  have := Nat.mod_lt p.length (show 0 < 16 by omega)
  omega

/-- The padded length is a multiple of 16. -/
theorem pkcs7Pad_length_mod (p : List Nat) : (pkcs7Pad p).length % 16 = 0 := by
  simp only [pkcs7Pad, List.length_append, List.length_replicate]
  omega

/-- Padding never yields the empty list. -/
theorem pkcs7Pad_ne_nil (p : List Nat) : pkcs7Pad p ≠ [] := by
  have h1 := pkcs7_pad_amount_pos p
  simp only [pkcs7Pad, ← List.length_pos_iff_ne_nil, List.length_append,
    List.length_replicate]
  omega

/-- The last byte of the padded list is the pad amount. -/
theorem pkcs7Pad_getLastD (p : List Nat) :
    (pkcs7Pad p).getLastD 0 = 16 - p.length % 16 := by
  have h1 := pkcs7_pad_amount_pos p
  rw [pkcs7Pad]
  obtain ⟨j, hj⟩ : ∃ j, 16 - p.length % 16 = j + 1 :=
    ⟨16 - p.length % 16 - 1, by omega⟩
  rw [hj, List.replicate_succ' (n := j), ← List.append_assoc, List.getLastD_concat]

/-- crypto-js unpadding inverts PKCS#7 padding. -/
theorem pkcs7Unpad_pad (p : List Nat) : pkcs7Unpad (pkcs7Pad p) = p := by
  rw [pkcs7Unpad, pkcs7Pad_getLastD]
  have hlen : (pkcs7Pad p).length = p.length + (16 - p.length % 16) := by
    simp [pkcs7Pad]
  rw [hlen]
  have : p.length + (16 - p.length % 16) - (16 - p.length % 16) = p.length := by
    omega
  rw [this, pkcs7Pad, List.take_left]

/-- `chunks16Aux` of the empty list is empty for any fuel. -/
theorem chunks16Aux_nil : ∀ fuel : Nat, chunks16Aux fuel [] = [] := by
  intro fuel
  cases fuel <;> rfl

/-- Any fuel at least the list length computes the same chunking. -/
theorem chunks16Aux_irrel :
    ∀ (fuel fuel' : Nat) (l : List Nat), l.length ≤ fuel → l.length ≤ fuel' →
      chunks16Aux fuel l = chunks16Aux fuel' l := by
  intro fuel
  induction fuel with
  | zero =>
      intro fuel' l h _
      have : l = [] := List.length_eq_zero.mp (Nat.le_zero.mp h)
      rw [this, chunks16Aux_nil, chunks16Aux_nil]
  | succ f ih =>
      intro fuel' l h h'
      cases l with
      | nil => rw [chunks16Aux_nil, chunks16Aux_nil]
      | cons x xs =>
          cases fuel' with
          | zero => simp at h'
          | succ f' =>
              show _ :: chunks16Aux f ((x :: xs).drop 16)
                  = _ :: chunks16Aux f' ((x :: xs).drop 16)
              have hd : ((x :: xs).drop 16).length ≤ f := by
                simp only [List.length_drop, List.length_cons]
                simp only [List.length_cons] at h
                omega
              have hd' : ((x :: xs).drop 16).length ≤ f' := by
                simp only [List.length_drop, List.length_cons]
                simp only [List.length_cons] at h'
                omega
              rw [ih f' _ hd hd']

/-- Unfolding `chunks16` on a non-empty list. -/
theorem chunks16_cons_unfold (l : List Nat) (h : l ≠ []) :
    chunks16 l = l.take 16 :: chunks16 (l.drop 16) := by
  cases l with
  | nil => exact absurd rfl h
  | cons x xs =>
      show (x :: xs).take 16 :: chunks16Aux xs.length ((x :: xs).drop 16)
          = (x :: xs).take 16 :: chunks16Aux ((x :: xs).drop 16).length
            ((x :: xs).drop 16)
      have hd : ((x :: xs).drop 16).length ≤ xs.length := by
        simp only [List.length_drop, List.length_cons]
        omega
      rw [chunks16Aux_irrel xs.length _ _ hd (le_refl _)]

/-- Joining the 16-byte chunks restores the list. -/
theorem chunks16_flatten_eq (l : List Nat) : (chunks16 l).flatten = l := by
  by_cases h : l = []
  · rw [h]; rfl
  · have hlt : (l.drop 16).length < l.length := by
      have h0 : l.length ≠ 0 := fun hc => h (List.length_eq_zero.mp hc)
      simp only [List.length_drop]
      omega
    rw [chunks16_cons_unfold l h, List.flatten_cons,
      chunks16_flatten_eq (l.drop 16), List.take_append_drop]
termination_by l.length

/-- When the length is a multiple of 16, every chunk has length exactly
16. -/
theorem chunks16_block_length (l : List Nat) (hmod : l.length % 16 = 0) :
    ∀ b ∈ chunks16 l, b.length = 16 := by
  by_cases h : l = []
  · intro b hb
    rw [h] at hb
    simp [chunks16, chunks16Aux] at hb
  · intro b hb
    have h0 : l.length ≠ 0 := fun hc => h (List.length_eq_zero.mp hc)
    have hlen16 : 16 ≤ l.length := by omega
    have hlt : (l.drop 16).length < l.length := by
      simp only [List.length_drop]
      omega
    rw [chunks16_cons_unfold l h, List.mem_cons] at hb
    rcases hb with hb | hb
    · rw [hb, List.length_take]
      omega
    · refine chunks16_block_length (l.drop 16) ?_ b hb
      rw [List.length_drop]
      omega
termination_by l.length

/-- Chunking the join of 16-byte blocks restores the blocks. -/
theorem chunks16_flatten_blocks :
    ∀ bs : List (List Nat), (∀ b ∈ bs, b.length = 16) →
      chunks16 bs.flatten = bs := by
  intro bs
  induction bs with
  | nil => intro _; rfl
  | cons b rest ih =>
      intro hlen
      have hb : b.length = 16 := hlen b (List.mem_cons_self b rest)
      have hne : b ++ rest.flatten ≠ [] := by
        simp only [← List.length_pos_iff_ne_nil, List.length_append]
        omega
      have htake : (b ++ rest.flatten).take 16 = b := by
        rw [← hb, List.take_left]
      have hdrop : (b ++ rest.flatten).drop 16 = rest.flatten := by
        rw [← hb, List.drop_left]
      rw [List.flatten_cons, chunks16_cons_unfold _ hne, htake, hdrop,
        ih fun x hx => hlen x (List.mem_cons_of_mem b hx)]

/-- Every ciphertext block of the CBC chain has length 16. -/
theorem cbcEncBlocks_length (prim : CbcPrimitive) (key : List Nat) :
    ∀ (bs : List (List Nat)) (prev : List Nat),
      (∀ b ∈ bs, b.length = 16) → prev.length = 16 →
      ∀ c ∈ cbcEncBlocks prim key prev bs, c.length = 16 := by
  intro bs
  induction bs with
  | nil => intro prev _ _ c hc; simp [cbcEncBlocks] at hc
  | cons b rest ih =>
      intro prev hlen hprev c hc
      have hb : b.length = 16 := hlen b (List.mem_cons_self b rest)
      have hxor : (List.zipWith Nat.xor b prev).length = 16 := by
        rw [List.length_zipWith, hb, hprev]; rfl
      have hcl : (prim.encBlock key (List.zipWith Nat.xor b prev)).length = 16 :=
        prim.enc_length key _ hxor
      rw [cbcEncBlocks] at hc
      simp only [List.mem_cons] at hc
      rcases hc with hc | hc
      · rw [hc]; exact hcl
      · exact ih _ (fun x hx => hlen x (List.mem_cons_of_mem b hx)) hcl c hc

/-- Decrypting the CBC chain with the same key and chaining value restores
the plaintext blocks. -/
theorem cbcDecBlocks_encBlocks (prim : CbcPrimitive) (key : List Nat) :
    ∀ (bs : List (List Nat)) (prev : List Nat),
      (∀ b ∈ bs, b.length = 16) → prev.length = 16 →
      cbcDecBlocks prim key prev (cbcEncBlocks prim key prev bs) = bs := by
  intro bs
  induction bs with
  | nil => intro prev _ _; simp [cbcEncBlocks, cbcDecBlocks]
  | cons b rest ih =>
      intro prev hlen hprev
      have hb : b.length = 16 := hlen b (List.mem_cons_self b rest)
      have hxor : (List.zipWith Nat.xor b prev).length = 16 := by
        rw [List.length_zipWith, hb, hprev]; rfl
      rw [cbcEncBlocks, cbcDecBlocks]
      have hdec : prim.decBlock key
          (prim.encBlock key (List.zipWith Nat.xor b prev))
            = List.zipWith Nat.xor b prev :=
        prim.dec_enc key _ hxor
      rw [hdec, zipWith_xor_cancel b prev (by omega),
        ih _ (fun x hx => hlen x (List.mem_cons_of_mem b hx))
          (prim.enc_length key _ hxor)]

/-- The flattened CBC ciphertext of a padded plaintext is never empty. -/
theorem cbcEncrypt_data_ne_nil (prim : CbcPrimitive) (secret salt iv p : List Nat)
    (hiv : iv.length = 16) :
    (cbcEncrypt prim secret salt iv p).encryptedData ≠ [] := by
  rw [cbcEncrypt]
  have hne := pkcs7Pad_ne_nil p
  have hblocks : chunks16 (pkcs7Pad p) = (pkcs7Pad p).take 16
      :: chunks16 ((pkcs7Pad p).drop 16) :=
    chunks16_cons_unfold _ hne
  have hhead : ((pkcs7Pad p).take 16).length = 16 := by
    have hmod := pkcs7Pad_length_mod p
    have hlen : 1 ≤ (pkcs7Pad p).length := by
      have := List.length_pos_iff_ne_nil.mpr hne
      omega
    rw [List.length_take]
    omega
  have hxorlen : (List.zipWith Nat.xor ((pkcs7Pad p).take 16) iv).length = 16 := by
    rw [List.length_zipWith, hhead, hiv]; rfl
  have hclen := prim.enc_length (cbcDeriveKey prim.prf secret salt) _ hxorlen
  simp only [hblocks, cbcEncBlocks, List.flatten_cons, ne_eq, List.append_eq_nil,
    not_and]
  intro hc
  rw [hc] at hclen
  simp at hclen

/-- ASCII byte lists are well-formed UTF-8 (every byte takes the one-byte
branch of the decoder). -/
theorem utf8Ok_of_ascii :
    ∀ l : List Nat, (∀ b ∈ l, b < 128) → utf8Ok l = true := by
  intro l
  induction l with
  | nil => intro _; rfl
  | cons b rest ih =>
      intro h
      have hb : b ≤ 127 := by
        have := h b (List.mem_cons_self b rest)
        omega
      rw [utf8Ok, utf8OkState.eq_2, if_pos rfl, if_pos hb]
      exact ih fun x hx => h x (List.mem_cons_of_mem b hx)

/-- Flipping a byte of an ASCII list by a mask below `0x80` keeps the list
ASCII. -/
theorem flipAt_ascii (l : List Nat) (i m : Nat)
    (hl : ∀ b ∈ l, b < 128) (hm : m < 128) :
    ∀ b ∈ flipAt l i m, b < 128 := by
  intro b hb
  rcases List.mem_or_eq_of_mem_set hb with hb | hb
  · exact hl b hb
  · rw [hb]
    have hgd : l.getD i 0 < 128 := by
      by_cases hi : i < l.length
      · rw [List.getD_eq_getElem?_getD, List.getElem?_eq_getElem hi]
        exact hl _ (List.getElem_mem hi)
      · rw [List.getD_eq_getElem?_getD, List.getElem?_eq_none (by omega)]
        simp
    have := Nat.xor_lt_two_pow (n := 7) (by simpa using hgd) (by simpa using hm)
    simpa using this

/-- CBC round trip for non-empty plaintext: decrypting an encrypt-produced
envelope with the same secret succeeds and restores the plaintext. -/
theorem cbcDecrypt_cbcEncrypt (prim : CbcPrimitive) (secret salt iv p : List Nat)
    (hiv : iv.length = 16) (hsalt : salt ≠ []) (hp : p ≠ [])
    (hutf8 : utf8Ok p = true) :
    cbcDecrypt prim secret (cbcEncrypt prim secret salt iv p) =
      { decryptedData := p, success := true, error := none } := by
  have hivne : iv ≠ [] := by
    intro h
    rw [h] at hiv
    simp at hiv
  have hdata := cbcEncrypt_data_ne_nil prim secret salt iv p hiv
  have henv : cbcEncrypt prim secret salt iv p =
      { encryptedData := (cbcEncBlocks prim (cbcDeriveKey prim.prf secret salt)
          iv (chunks16 (pkcs7Pad p))).flatten
        iv := iv
        salt := salt } := rfl
  rw [henv] at hdata ⊢
  have hblocklen : ∀ b ∈ chunks16 (pkcs7Pad p), b.length = 16 :=
    chunks16_block_length _ (pkcs7Pad_length_mod p)
  have hctlen : ∀ c ∈ cbcEncBlocks prim (cbcDeriveKey prim.prf secret salt) iv
      (chunks16 (pkcs7Pad p)), c.length = 16 :=
    cbcEncBlocks_length prim _ _ iv hblocklen hiv
  have hchunks : chunks16 ((cbcEncBlocks prim (cbcDeriveKey prim.prf secret salt)
        iv (chunks16 (pkcs7Pad p))).flatten)
      = cbcEncBlocks prim (cbcDeriveKey prim.prf secret salt) iv
        (chunks16 (pkcs7Pad p)) :=
    chunks16_flatten_blocks _ hctlen
  have hdec : cbcDecBlocks prim (cbcDeriveKey prim.prf secret salt) iv
        (cbcEncBlocks prim (cbcDeriveKey prim.prf secret salt) iv
          (chunks16 (pkcs7Pad p)))
      = chunks16 (pkcs7Pad p) :=
    cbcDecBlocks_encBlocks prim _ _ iv hblocklen hiv
  rw [cbcDecrypt]
  simp only [decide_eq_false hdata, decide_eq_false hivne, decide_eq_false hsalt,
    Bool.or_false, Bool.false_eq_true, if_false, hchunks, hdec,
    chunks16_flatten_eq, pkcs7Unpad_pad]
  simp [hutf8, hp]

/-- GCM round trip: decrypting an encrypt-produced envelope with the same
key returns the plaintext. -/
theorem gcmDecrypt_gcmEncrypt (prim : GcmPrimitive) (key iv p : List Nat) :
    gcmDecrypt prim key (gcmEncrypt prim key iv p) = .ok p := by
  have henv : gcmEncrypt prim key iv p =
      { encryptedData := List.zipWith Nat.xor p (prim.keystream key iv p.length)
        iv := iv
        tag := prim.mac key iv walletSecretAAD
          (List.zipWith Nat.xor p (prim.keystream key iv p.length)) } := rfl
  rw [henv, gcmDecrypt]
  simp only [if_pos rfl]
  have hlen : (List.zipWith Nat.xor p (prim.keystream key iv p.length)).length
      = p.length := by
    rw [List.length_zipWith, prim.keystream_length]
    exact Nat.min_self p.length
  rw [hlen]
  exact congrArg Except.ok
    (zipWith_xor_cancel p _ (le_of_eq (prim.keystream_length key iv p.length).symm))

/-! ## Claims -/

/-- **C9, counterexample.**  The claim says `transition(w, t)` fails with
`InvalidTransition` for EVERY target `t` with `canTransition(w.status, t)`
false.  A same-status call refutes it: `canTransition(ACTIVE, ACTIVE)` is
false (no status appears in its own allowed-transition set), yet
`transitionWalletStatus` returns the wallet unchanged without error,
because the source checks `wallet.status === to` before consulting the
table. -/
theorem transition_same_status_no_error :
    canTransitionWalletStatus .ACTIVE .ACTIVE = false ∧
      transitionWalletStatus wActiveSample .ACTIVE (some "noop") 5 =
        .ok wActiveSample := by
  constructor
  · decide
  · rfl

/-- **C9, amended.**  `transitionWalletStatus` fails with the
`InvalidTransition` error whenever `canTransitionWalletStatus` is false AND
the target differs from the current status; a same-status call is a no-op
that returns the wallet unchanged (even though `canTransition(s, s)` is
false for every `s`). -/
theorem transition_invalid_fails :
    (∀ (w : Wallet) (dst : WalletStatus) (reason : Option String) (now : Nat),
      canTransitionWalletStatus w.status dst = false → dst ≠ w.status →
      transitionWalletStatus w dst reason now =
        .error ("Invalid wallet status transition: " ++ w.status.name ++ " -> "
          ++ dst.name)) ∧
    (∀ (w : Wallet) (reason : Option String) (now : Nat),
      transitionWalletStatus w w.status reason now = .ok w) := by
  constructor
  · intro w dst reason now hcan hne
    rw [transitionWalletStatus, if_neg (fun h => hne h.symm), if_pos]
    simp [hcan]
  · intro w reason now
    simp [transitionWalletStatus]

/-- **C9, witness.**  The amended theorem applied to the DISABLED sample
wallet and target ACTIVE. -/
theorem transition_invalid_fails_witness :
    transitionWalletStatus wDisabled .ACTIVE none 3 =
      .error ("Invalid wallet status transition: "
        ++ WalletStatus.DISABLED.name ++ " -> " ++ WalletStatus.ACTIVE.name) :=
  transition_invalid_fails.1 wDisabled .ACTIVE none 3 (by decide) (by decide)

/-- **C4.**  The claim (and the lifecycle model's own comment, "keep this
strict to avoid accidental reactivation after compromise/disable") says a
DISABLED or COMPROMISED wallet's status is never changed by any mutating
operation, `WalletsService.updateWalletStatus` included.  The code
violates it: `updateWalletStatus` writes the requested status
unconditionally, never calling `canTransitionWalletStatus`, so the
DISABLED sample wallet is reactivated to ACTIVE — a transition the
lifecycle table forbids. -/
theorem updateWalletStatus_reactivates_disabled :
    wDisabled.status = .DISABLED ∧
    canTransitionWalletStatus .DISABLED .ACTIVE = false ∧
    (updateWalletStatus dbDisabled "wd" .ACTIVE (some "reactivate") 7).toOption.map
        (fun p => p.1.status) = some .ACTIVE := by
  refine ⟨rfl, by decide, rfl⟩

/-- **C10, counterexample.**  The claim says `getAuditLog(n)` is
reverse-chronological (newest first).  On the two-entry log
`[auditE1, auditE2]` (timestamps 1 then 2), `getAuditLog 2` returns
`[auditE1, auditE2]` — oldest first — not the claimed `[auditE2, auditE1]`,
because `slice(-limit)` preserves array (chronological) order. -/
theorem getAuditLog_not_reverse_chronological :
    getAuditLog [auditE1, auditE2] 2 = [auditE1, auditE2] ∧
      getAuditLog [auditE1, auditE2] 2 ≠ [auditE2, auditE1] := by
  constructor
  · rfl
  · decide

/-- **C10, amended.**  For every log and every limit `n ≥ 1`,
`getAuditLog(n)` returns the most recent `min(n, length)` entries in
CHRONOLOGICAL order: the reverse of taking `n` from the
newest-first reversal.  (For `n = 0`, JS `slice(-0)` returns the whole
log.) -/
theorem getAuditLog_returns_most_recent_chronological
    (log : List KeyOperationAudit) (n : Nat) (hn : 1 ≤ n) :
    getAuditLog log n = (log.reverse.take n).reverse := by
  rw [getAuditLog, jsSliceLast, if_neg (by omega), List.take_reverse,
    List.reverse_reverse]

/-- **C10, witness.**  The amended theorem on the three-entry log with
limit 2: the two most recent entries, oldest of them first. -/
theorem getAuditLog_returns_most_recent_chronological_witness :
    getAuditLog [auditE1, auditE2, auditE3] 2 = [auditE2, auditE3] := by
  rw [getAuditLog_returns_most_recent_chronological [auditE1, auditE2, auditE3] 2
    (by omega)]
  rfl

/-- **C8, counterexample.**  The claim says the master key of the envelope
encryption service is derived by at least 10,000 rounds of iterated
hashing for every operation.  The GCM `EncryptionService` (constructor,
line 32) applies SHA-256 exactly ONCE: under the length-growing hash
`consZero` — where output length counts hash applications — the derived
key of the empty secret is the single application `[0]` (one round), while
10,000 rounds would produce a list of length 10,000. -/
theorem gcm_key_derivation_single_round :
    gcmDerivedKey consZero [] = [0] ∧
    (iterHash consZero cbcPbkdf2Iterations []).length = 10000 ∧
    gcmDerivedKey consZero [] ≠ iterHash consZero cbcPbkdf2Iterations [] := by
  refine ⟨rfl, by simpa using iterHash_consZero_length cbcPbkdf2Iterations [], ?_⟩
  intro h
  have := congrArg List.length h
  rw [iterHash_consZero_length] at this
  simp only [gcmDerivedKey, consZero, List.length_cons, List.length_nil,
    Nat.zero_add] at this
  exact absurd this (by decide)

/-- **C8, amended.**  The CBC variant derives its key — on every encrypt
and every decrypt — via PBKDF2 with exactly 10,000 iterations of the
underlying PRF (counted here by the length-growing hash); the GCM service
instead derives its key by a single hash application (one round of
iterated hashing), once at construction. -/
theorem key_derivation_iteration_counts :
    (∀ secret salt : List Nat,
      (cbcDeriveKey consZero secret salt).length
        = secret.length + salt.length + cbcPbkdf2Iterations) ∧
    (∀ (sha256 : List Nat → List Nat) (secret : List Nat),
      gcmDerivedKey sha256 secret = iterHash sha256 1 secret) ∧
    cbcPbkdf2Iterations = 10000 := by
  refine ⟨?_, fun _ _ => rfl, rfl⟩
  intro secret salt
  rw [cbcDeriveKey, iterHash_consZero_length, List.length_append]

/-- **C6, counterexample.**  The claim says no audit entry contains a full
public key beyond a truncation prefix.  A successful `generateKey` appends
an entry whose `publicKey` field is the FULL generated public key (27
characters here, well beyond the 12-character prefix used in the log
line). -/
theorem audit_entry_stores_full_public_key :
    ((generateKeyStep (.ok kpSample) (fun s => "enc-" ++ s) none 5 []).2.map
        (fun a => a.publicKey)) = ["GABCDEFGHIJKLMNOPQRSTUVWXYZ"] ∧
      12 < "GABCDEFGHIJKLMNOPQRSTUVWXYZ".length := by
  exact ⟨rfl, by decide⟩

/-- **C6, amended.**  Audit entries appended by `generateKey` and `sign`
never contain private-key bytes or ciphertext — the appended log is
invariant under changing the private-key material, the encryption
function, or the signature value (noninterference), and the failure-path
`errorMessage` is exactly the provider's error string — but the stored
entries DO carry the full public key; the truncation to a 12-character
prefix happens only in the emitted `[AUDIT]` log line, which is invariant
under any change of the public key beyond its first 12 characters. -/
theorem audit_no_secret_material :
    (∀ (pk priv priv' : String) (enc enc' : String → String)
        (md : Option String) (now : Nat) (log : List KeyOperationAudit),
      (generateKeyStep (.ok ⟨pk, priv⟩) enc md now log).2
        = (generateKeyStep (.ok ⟨pk, priv'⟩) enc' md now log).2) ∧
    (∀ (e : String) (enc enc' : String → String) (md md' : Option String)
        (now : Nat) (log : List KeyOperationAudit),
      (generateKeyStep (.error e) enc md now log).2
        = (generateKeyStep (.error e) enc' md' now log).2) ∧
    (∀ (sig sig' : SignatureResult) (pk : String) (now : Nat)
        (log : List KeyOperationAudit),
      (signStep (.ok sig) pk now log).2 = (signStep (.ok sig') pk now log).2) ∧
    (∀ (log : List KeyOperationAudit) (a a' : KeyOperationAudit),
      a.publicKey.take 12 = a'.publicKey.take 12 → a.operation = a'.operation →
      a.success = a'.success → a.errorMessage = a'.errorMessage →
      (auditKeyOperation log a).2 = (auditKeyOperation log a').2) := by
  refine ⟨fun _ _ _ _ _ _ _ _ => rfl, fun _ _ _ _ _ _ _ => rfl,
    fun _ _ _ _ _ => rfl, ?_⟩
  intro log a a' hpk hop hsucc herr
  rw [auditKeyOperation, auditKeyOperation]
  simp only [hpk, hop, hsucc, herr]

/-- **C6, witness.**  The truncation conjunct applied to the two concrete
entries that agree on the first 12 characters of the public key: the
emitted log lines coincide. -/
theorem audit_no_secret_material_witness :
    (auditKeyOperation [] auditPrefixA).2 = (auditKeyOperation [] auditPrefixB).2 :=
  audit_no_secret_material.2.2.2 [] auditPrefixA auditPrefixB (by decide) rfl rfl rfl

/-- **C7.**  The claim says `createWallet` fails with `UserNotFound`
whenever no user exists, creating nothing.  The primary orchestrator
violates this: its `resolveUser` is a development stub ("Mock user for
development" — the source's own comment says the real implementation
would query the users table) that fabricates a user for ANY id.  On a
store with an EMPTY users table, `createWallet` for the unknown user
`ghost` succeeds with `isNewWallet = true` and persists a wallet row for
`ghost`, instead of failing with `UserNotFound` and leaving no side
effects. -/
theorem createWallet_ignores_missing_user :
    dbNoUsers.users = [] ∧
    (resolveUser "ghost" dbNoUsers 3).isSome = true ∧
    (createWallet envW ⟨"ghost", .MAINNET, none⟩ dbNoUsers 3).1.toOption.map
        (fun r => r.isNewWallet) = some true ∧
    ((createWallet envW ⟨"ghost", .MAINNET, none⟩ dbNoUsers 3).2.wallets.map
        (fun w => w.userId)) = ["ghost"] := by
  exact ⟨rfl, rfl, rfl, rfl⟩

/-- **C3.**  The claim (and the spec's MUST, and the repository's own e2e
test expecting N concurrent creations to all succeed with one wallet) says
a storage-layer uniqueness-constraint violation raised by a concurrent
creation race is caught and converted into returning the existing wallet.
The code violates it: in `dbRace` the race window is open — no wallet for
`(user-123, TESTNET)` is visible to this transaction's reads, but a
concurrent transaction has committed one, so the insert raises
`UniqueConstraintViolation` — and `createWallet` surfaces the generic
`Error('Wallet creation orchestration failed')` to the caller instead of
the existing wallet. -/
theorem createWallet_race_surfaces_generic_error :
    findExistingWallet "user-123" .TESTNET dbRace = none ∧
    walletCreate dbRace "user-123" "GPUBW" "enc:privW" .TESTNET 9
      = .error .uniqueConstraintViolation ∧
    createWallet envW ⟨"user-123", .TESTNET, none⟩ dbRace 9
      = (.error (.genericError "Wallet creation orchestration failed"), dbRace) := by
  exact ⟨rfl, rfl, rfl⟩

/-- Characterization of `createWallet` on a store with no committed or
concurrently committed row for `(userId, network)`: it inserts the fresh
row and reports `isNewWallet = true` with the raw private key. -/
theorem createWallet_fresh (env : OrchEnv) (u : String) (n : WalletNetwork)
    (db : Db) (now : Nat)
    (h0 : ∀ w ∈ db.wallets ++ db.phantom, matchesUserNetwork u n w = false) :
    createWallet env ⟨u, n, none⟩ db now =
      (.ok { wallet := freshWallet env u n db now
             privateKey := env.genPrivateKey
             isNewWallet := true
             idempotencyKey := none },
       { db with wallets := db.wallets ++ [freshWallet env u n db now]
                 nextId := db.nextId + 1 }) := by
  have hfind : db.wallets.find? (matchesUserNetwork u n) = none :=
    List.find?_eq_none.mpr fun w hw => by
      simp [h0 w (List.mem_append_left _ hw)]
  have hany : (db.wallets ++ db.phantom).any (matchesUserNetwork u n) = false :=
    List.any_eq_false.mpr fun w hw => by simp [h0 w hw]
  rw [createWallet]
  simp only [resolveUser, findExistingWallet, hfind, createNewWallet, walletCreate,
    hany, Bool.false_eq_true, if_false, freshWallet]

/-- Characterization of `createWallet` when a row for `(userId, network)`
is visible to this transaction's reads: the existing wallet is returned
with `isNewWallet = false` and an empty private key, and the store is
unchanged. -/
theorem createWallet_existing (env : OrchEnv) (u : String) (n : WalletNetwork)
    (db : Db) (now : Nat) (w : Wallet)
    (hw : findExistingWallet u n db = some w) :
    createWallet env ⟨u, n, none⟩ db now =
      (.ok { wallet := w
             privateKey := ""
             isNewWallet := false
             idempotencyKey := none }, db) := by
  rw [createWallet]
  simp only [resolveUser, hw]

/-- **C2.**  Calling `createWallet` a second time for the same
`(userId, network)` with no idempotency key returns the very wallet the
first call created — identical `walletId` and `publicKey` — with
`isNewWallet = false` and an empty raw private key, leaves the store
untouched, and exactly one wallet row for that `(userId, network)` exists
after the first call (hence after the second as well).  The hypothesis is
that no row for the pair existed before the first call, committed or
concurrently committed. -/
theorem createWallet_idempotent (env env' : OrchEnv) (u : String)
    (n : WalletNetwork) (db : Db) (now now' : Nat)
    (h0 : ∀ w ∈ db.wallets ++ db.phantom, matchesUserNetwork u n w = false)
    (r1 : WalletOrchestrationResult) (db1 : Db)
    (h1 : createWallet env ⟨u, n, none⟩ db now = (.ok r1, db1)) :
    r1.isNewWallet = true ∧
    createWallet env' ⟨u, n, none⟩ db1 now' =
      (.ok { wallet := r1.wallet
             privateKey := ""
             isNewWallet := false
             idempotencyKey := none }, db1) ∧
    db1.wallets.countP (matchesUserNetwork u n) = 1 := by
  rw [createWallet_fresh env u n db now h0] at h1
  have hfindnone : db.wallets.find? (matchesUserNetwork u n) = none :=
    List.find?_eq_none.mpr fun w hw => by
      simp [h0 w (List.mem_append_left _ hw)]
  injection h1 with ha hb
  injection ha with ha'
  have hr1 : r1 = { wallet := freshWallet env u n db now
                    privateKey := env.genPrivateKey
                    isNewWallet := true
                    idempotencyKey := none } := ha'.symm
  have hdb1 : db1 = { db with wallets := db.wallets ++ [freshWallet env u n db now]
                              nextId := db.nextId + 1 } := hb.symm
  have hmatch : matchesUserNetwork u n (freshWallet env u n db now) = true := by
    simp [matchesUserNetwork, freshWallet]
  have hfind1 : findExistingWallet u n db1 = some (freshWallet env u n db now) := by
    rw [hdb1, findExistingWallet]
    show List.find? _ (db.wallets ++ [freshWallet env u n db now]) = _
    rw [List.find?_append, hfindnone, Option.none_or]
    simp [List.find?_cons, hmatch]
  refine ⟨by rw [hr1], ?_, ?_⟩
  · rw [createWallet_existing env' u n db1 now' _ hfind1, hr1]
  · rw [hdb1]
    show (db.wallets ++ [freshWallet env u n db now]).countP _ = 1
    rw [List.countP_append, List.countP_eq_zero.mpr
      (fun w hw => by simp [h0 w (List.mem_append_left _ hw)])]
    simp [List.countP_cons, hmatch]

/-- **C1, counterexample.**  The claim quantifies over EVERY plaintext
`P`, for both services.  It fails for the CBC variant at the empty
plaintext: decrypting the envelope `encrypt("")` produces the empty
string, which the decrypt guard (`decryptedText.length === 0`) treats as
corruption, so the round trip returns `success = false` with the
empty-data error instead of the original plaintext — under the concrete
byte-shift block cipher `cbcToy`. -/
theorem cbc_roundtrip_fails_on_empty_plaintext :
    cbcDecrypt cbcToy [5] (cbcEncrypt cbcToy [5] [9] ivZero []) =
      { decryptedData := [], success := false, error := some cbcEmptyErrorMsg } := by
  decide

/-- **C1, amended.**  `decrypt(encrypt(P, K), K) = P` holds for the
AES-256-GCM service for every plaintext `P` (and every keystream/MAC
primitive), and for the AES-256-CBC variant for every NON-EMPTY plaintext
string — byte lists that are well-formed UTF-8, which every string input
to `encrypt(plainText: string)` is — with a 16-byte IV and non-empty
salt, as the source draws them.  The CBC variant rejects the empty
plaintext's round trip because its decrypt treats empty output as
failure. -/
theorem envelope_encrypt_decrypt_roundtrip :
    (∀ (prim : GcmPrimitive) (key iv p : List Nat),
      gcmDecrypt prim key (gcmEncrypt prim key iv p) = .ok p) ∧
    (∀ (prim : CbcPrimitive) (secret salt iv p : List Nat),
      iv.length = 16 → salt ≠ [] → p ≠ [] → utf8Ok p = true →
      cbcDecrypt prim secret (cbcEncrypt prim secret salt iv p) =
        { decryptedData := p, success := true, error := none }) :=
  ⟨gcmDecrypt_gcmEncrypt, cbcDecrypt_cbcEncrypt⟩

/-- **C1, witness.**  The round-trip theorem applied to concrete inputs:
a two-byte plaintext under the toy GCM primitive, and the two-byte ASCII
plaintext `[65, 66]` under the toy CBC block cipher. -/
theorem envelope_encrypt_decrypt_roundtrip_witness :
    gcmDecrypt gcmToy [1] (gcmEncrypt gcmToy [1] [2, 3] [7, 8]) = .ok [7, 8] ∧
    cbcDecrypt cbcToy [5] (cbcEncrypt cbcToy [5] [9] ivZero [65, 66]) =
      { decryptedData := [65, 66], success := true, error := none } :=
  ⟨envelope_encrypt_decrypt_roundtrip.1 gcmToy [1] [2, 3] [7, 8],
   envelope_encrypt_decrypt_roundtrip.2 cbcToy [5] [9] ivZero [65, 66]
     (by decide) (by decide) (by decide) (by decide)⟩

/-- **C5, counterexample.**  The claim says flipping any single byte of a
stored envelope makes decrypt fail for BOTH services.  The CBC variant
refutes it: flipping the first IV byte of the envelope of the 16-byte
ASCII plaintext `pAscii` decrypts to `success = true` with ALTERED
plaintext (`flipAt pAscii 0 1 ≠ pAscii`) — CBC has no authentication, an
IV flip only flips the corresponding first-block plaintext byte (here
`'A'` to `'@'`, still well-formed UTF-8) and leaves the padding intact. -/
theorem cbc_iv_tamper_returns_altered_plaintext :
    cbcDecrypt cbcToy [5]
        { cbcEncrypt cbcToy [5] [9] ivZero pAscii with iv := flipAt ivZero 0 1 } =
      { decryptedData := flipAt pAscii 0 1, success := true, error := none } ∧
    flipAt pAscii 0 1 ≠ pAscii := by
  exact ⟨by decide, by decide⟩

/-- CBC decryption of an IV-tampered envelope of a one-block plaintext
succeeds and returns the plaintext flipped at the tampered position — for
EVERY block cipher primitive, key, and flip position. -/
theorem cbcDecrypt_iv_tamper (prim : CbcPrimitive) (secret salt iv p : List Nat)
    (i m : Nat) (hiv : iv.length = 16) (hsalt : salt ≠ []) (hp : p.length = 16)
    (hascii : ∀ b ∈ p, b < 128) (hi : i < 16) (hm : m ≠ 0) (hm128 : m < 128) :
    cbcDecrypt prim secret
        { cbcEncrypt prim secret salt iv p with iv := flipAt iv i m } =
      { decryptedData := flipAt p i m, success := true, error := none } ∧
    flipAt p i m ≠ p := by
  refine ⟨?_, flipAt_ne p i m (by omega) hm⟩
  have hutf8flip : utf8Ok (flipAt p i m) = true :=
    utf8Ok_of_ascii _ (flipAt_ascii p i m hascii hm128)
  have hpne : p ≠ [] := by
    intro hc
    rw [hc] at hp
    simp at hp
  have hpad : pkcs7Pad p = p ++ List.replicate 16 16 := by
    rw [pkcs7Pad, hp]
  have hchunksPad : chunks16 (pkcs7Pad p) = [p, List.replicate 16 16] := by
    rw [hpad]
    have hflat : p ++ List.replicate 16 16 = ([p, List.replicate 16 16] :
        List (List Nat)).flatten := by simp
    rw [hflat]
    refine chunks16_flatten_blocks _ ?_
    intro b hb
    simp only [List.mem_cons, List.not_mem_nil, or_false] at hb
    rcases hb with hb | hb
    · rw [hb]; exact hp
    · rw [hb]; simp
  have hxorlen : (List.zipWith Nat.xor p iv).length = 16 := by
    rw [List.length_zipWith, hp, hiv]; rfl
  have hc1len : (prim.encBlock (cbcDeriveKey prim.prf secret salt)
      (List.zipWith Nat.xor p iv)).length = 16 :=
    prim.enc_length _ _ hxorlen
  have hxorlen2 : (List.zipWith Nat.xor (List.replicate 16 16)
      (prim.encBlock (cbcDeriveKey prim.prf secret salt)
        (List.zipWith Nat.xor p iv))).length = 16 := by
    rw [List.length_zipWith, List.length_replicate, hc1len]; rfl
  have hc2len : (prim.encBlock (cbcDeriveKey prim.prf secret salt)
      (List.zipWith Nat.xor (List.replicate 16 16)
        (prim.encBlock (cbcDeriveKey prim.prf secret salt)
          (List.zipWith Nat.xor p iv)))).length = 16 :=
    prim.enc_length _ _ hxorlen2
  have henc : cbcEncrypt prim secret salt iv p =
      { encryptedData := (cbcEncBlocks prim (cbcDeriveKey prim.prf secret salt)
          iv (chunks16 (pkcs7Pad p))).flatten
        iv := iv
        salt := salt } := rfl
  have hdata :
      (cbcEncBlocks prim (cbcDeriveKey prim.prf secret salt) iv
        (chunks16 (pkcs7Pad p))).flatten ≠ [] := by
    have h1 := cbcEncrypt_data_ne_nil prim secret salt iv p hiv
    rw [henc] at h1
    exact h1
  have hivflipne : flipAt iv i m ≠ [] := by
    intro hc
    have hlc := congrArg List.length hc
    rw [flipAt_length, hiv] at hlc
    simp at hlc
  have hencB : cbcEncBlocks prim (cbcDeriveKey prim.prf secret salt) iv
      (chunks16 (pkcs7Pad p))
      = [prim.encBlock (cbcDeriveKey prim.prf secret salt)
          (List.zipWith Nat.xor p iv),
         prim.encBlock (cbcDeriveKey prim.prf secret salt)
          (List.zipWith Nat.xor (List.replicate 16 16)
            (prim.encBlock (cbcDeriveKey prim.prf secret salt)
              (List.zipWith Nat.xor p iv)))] := by
    rw [hchunksPad]
    rfl
  have hchunksCt : chunks16 ((cbcEncBlocks prim (cbcDeriveKey prim.prf secret salt)
      iv (chunks16 (pkcs7Pad p))).flatten)
      = cbcEncBlocks prim (cbcDeriveKey prim.prf secret salt) iv
          (chunks16 (pkcs7Pad p)) := by
    refine chunks16_flatten_blocks _ ?_
    rw [hencB]
    intro b hb
    simp only [List.mem_cons, List.not_mem_nil, or_false] at hb
    rcases hb with hb | hb
    · rw [hb]; exact hc1len
    · rw [hb]; exact hc2len
  have hdecB : cbcDecBlocks prim (cbcDeriveKey prim.prf secret salt)
      (flipAt iv i m)
      (cbcEncBlocks prim (cbcDeriveKey prim.prf secret salt) iv
        (chunks16 (pkcs7Pad p)))
      = [flipAt p i m, List.replicate 16 16] := by
    rw [hencB]
    show List.zipWith Nat.xor
        (prim.decBlock (cbcDeriveKey prim.prf secret salt)
          (prim.encBlock (cbcDeriveKey prim.prf secret salt)
            (List.zipWith Nat.xor p iv))) (flipAt iv i m)
      :: List.zipWith Nat.xor
          (prim.decBlock (cbcDeriveKey prim.prf secret salt)
            (prim.encBlock (cbcDeriveKey prim.prf secret salt)
              (List.zipWith Nat.xor (List.replicate 16 16)
                (prim.encBlock (cbcDeriveKey prim.prf secret salt)
                  (List.zipWith Nat.xor p iv)))))
          (prim.encBlock (cbcDeriveKey prim.prf secret salt)
            (List.zipWith Nat.xor p iv))
      :: [] = _
    rw [prim.dec_enc _ _ hxorlen, prim.dec_enc _ _ hxorlen2,
      zipWith_xor_flip p iv i m (by rw [hp, hiv]),
      zipWith_xor_cancel (List.replicate 16 16) _
        (by rw [List.length_replicate, hc1len])]
  have hflipLen : (flipAt p i m).length = 16 := by rw [flipAt_length, hp]
  have hflipne : flipAt p i m ≠ [] := by
    intro hc
    have hlc := congrArg List.length hc
    rw [hflipLen] at hlc
    simp at hlc
  have hunpad : pkcs7Unpad (flipAt p i m ++ List.replicate 16 16)
      = flipAt p i m := by
    have hlast : (flipAt p i m ++ List.replicate 16 16).getLastD 0 = 16 := by
      rw [List.replicate_succ' (n := 15), ← List.append_assoc,
        List.getLastD_concat]
    rw [pkcs7Unpad, hlast, List.length_append, hflipLen, List.length_replicate]
    have h32 : 16 + 16 - 16 = 16 := by omega
    rw [h32, ← hflipLen, List.take_left]
  rw [henc, cbcDecrypt]
  simp only [decide_eq_false hdata, decide_eq_false hivflipne,
    decide_eq_false hsalt, Bool.or_false, Bool.false_eq_true, if_false,
    hchunksCt, hdecB, List.flatten_cons, List.flatten_nil, List.append_nil,
    hunpad]
  simp [hutf8flip, hflipne]

/-- GCM decrypt rejects any envelope whose stored tag differs from the
MAC recomputed over its iv, the fixed AAD, and its ciphertext. -/
theorem gcmDecrypt_tag_mismatch (prim : GcmPrimitive) (key : List Nat)
    (e : EncryptionResult)
    (h : prim.mac key e.iv walletSecretAAD e.encryptedData ≠ e.tag) :
    gcmDecrypt prim key e = .error .INVALID_DATA := by
  rw [gcmDecrypt, if_neg h]

/-- **C5, amended.**  For the AES-256-GCM service: any tamper that breaks
the MAC relation makes decrypt fail with a `DecryptionError`
(`INVALID_DATA`); in particular flipping ANY single byte of the stored
authentication tag always fails, for every MAC primitive; and decrypt
never returns unauthenticated plaintext — a successful decrypt implies the
stored tag is exactly the recomputed MAC and the output is the keystream
decryption.  A flipped ciphertext or IV byte fails exactly when the AEAD
primitive detects it (the recomputed MAC differs), which is the node
`crypto` AEAD contract.  The AES-256-CBC variant, however, has no
authentication: flipping an IV byte of a one-block envelope by any mask
that keeps the plaintext well-formed UTF-8 (any nonzero mask below `0x80`
on an ASCII plaintext) yields `success = true` with ALTERED plaintext;
tampering is caught only incidentally, when the flipped bytes break UTF-8
decoding — e.g. mask `0x80` on the all-`'A'` envelope, which fails with
`Malformed UTF-8 data`, not with a tamper-specific `DecryptionError`. -/
theorem envelope_tamper_detection :
    (∀ (prim : GcmPrimitive) (key iv p : List Nat) (i m : Nat),
      i < (gcmEncrypt prim key iv p).tag.length → m ≠ 0 →
      gcmDecrypt prim key
        { gcmEncrypt prim key iv p with
          tag := flipAt (gcmEncrypt prim key iv p).tag i m }
        = .error .INVALID_DATA) ∧
    (∀ (prim : GcmPrimitive) (key : List Nat) (e : EncryptionResult),
      prim.mac key e.iv walletSecretAAD e.encryptedData ≠ e.tag →
      gcmDecrypt prim key e = .error .INVALID_DATA) ∧
    (∀ (prim : GcmPrimitive) (key : List Nat) (e : EncryptionResult)
        (pt : List Nat),
      gcmDecrypt prim key e = .ok pt →
      prim.mac key e.iv walletSecretAAD e.encryptedData = e.tag ∧
      pt = List.zipWith Nat.xor e.encryptedData
        (prim.keystream key e.iv e.encryptedData.length)) ∧
    (∀ (prim : CbcPrimitive) (secret salt iv p : List Nat) (i m : Nat),
      iv.length = 16 → salt ≠ [] → p.length = 16 → (∀ b ∈ p, b < 128) →
      i < 16 → m ≠ 0 → m < 128 →
      cbcDecrypt prim secret
          { cbcEncrypt prim secret salt iv p with iv := flipAt iv i m } =
        { decryptedData := flipAt p i m, success := true, error := none } ∧
      flipAt p i m ≠ p) ∧
    cbcDecrypt cbcToy [5]
        { cbcEncrypt cbcToy [5] [9] ivZero pAscii with
          iv := flipAt ivZero 0 128 } =
      { decryptedData := [], success := false,
        error := some cbcMalformedUtf8Msg } := by
  refine ⟨?_, gcmDecrypt_tag_mismatch, ?_, cbcDecrypt_iv_tamper, by decide⟩
  · intro prim key iv p i m hi hm
    refine gcmDecrypt_tag_mismatch prim key _ ?_
    show prim.mac key (gcmEncrypt prim key iv p).iv walletSecretAAD
        (gcmEncrypt prim key iv p).encryptedData
      ≠ flipAt (gcmEncrypt prim key iv p).tag i m
    have htag : prim.mac key (gcmEncrypt prim key iv p).iv walletSecretAAD
        (gcmEncrypt prim key iv p).encryptedData
        = (gcmEncrypt prim key iv p).tag := rfl
    rw [htag]
    exact (flipAt_ne _ i m hi hm).symm
  · intro prim key e pt h
    rw [gcmDecrypt] at h
    by_cases hmac : prim.mac key e.iv walletSecretAAD e.encryptedData = e.tag
    · rw [if_pos hmac] at h
      exact ⟨hmac, (Except.ok.inj h).symm⟩
    · rw [if_neg hmac] at h
      exact absurd h (by simp)

/-- **C5, witness.**  The amended theorem applied at concrete inputs: a
tag byte-flip on the toy GCM primitive fails with `INVALID_DATA`, and an
ASCII-preserving IV byte-flip (mask 4) on the toy CBC primitive succeeds
with altered plaintext. -/
theorem envelope_tamper_detection_witness :
    gcmDecrypt gcmToy [1]
        { gcmEncrypt gcmToy [1] [2, 3] [7, 8] with
          tag := flipAt (gcmEncrypt gcmToy [1] [2, 3] [7, 8]).tag 0 1 }
      = .error .INVALID_DATA ∧
    cbcDecrypt cbcToy [5]
        { cbcEncrypt cbcToy [5] [9] ivZero pAscii with iv := flipAt ivZero 2 4 } =
      { decryptedData := flipAt pAscii 2 4, success := true, error := none } :=
  ⟨envelope_tamper_detection.1 gcmToy [1] [2, 3] [7, 8] 0 1 (by decide) (by decide),
   (envelope_tamper_detection.2.2.2.1 cbcToy [5] [9] ivZero pAscii 2 4
     (by decide) (by decide) (by decide) (by decide) (by decide) (by decide)
     (by decide)).1⟩

/-- **C2, witness.**  The theorem applied to the concrete first call
`createWallet envW ⟨u1, TESTNET, none⟩ dbW0 1`, which produces `r1W` and
`db1W`. -/
theorem createWallet_idempotent_witness :
    r1W.isNewWallet = true ∧
    createWallet envW ⟨"u1", .TESTNET, none⟩ db1W 2 =
      (.ok { wallet := r1W.wallet
             privateKey := ""
             isNewWallet := false
             idempotencyKey := none }, db1W) ∧
    db1W.wallets.countP (matchesUserNetwork "u1" .TESTNET) = 1 :=
  createWallet_idempotent envW envW "u1" .TESTNET dbW0 1 2
    (by intro w hw; simp [dbW0] at hw) r1W db1W rfl

end MuxBackend
